import Mathlib

/-!
Verification of the worktree CLI's hook/lifecycle orchestration core.

The development shallowly embeds the source's hook executor
(`src/plugins/runner.ts`), the merge workflow (`mergeCommand`), the remove
workflow (`removeCommand`) and the create workflow's path resolution
(`src/commands/create.ts`).  Side effects are modelled as an explicit trace
of `Event`s: every logger call, success-channel line (`console.log`),
mutating VCS call, hook-function invocation and hook-command execution of
the source appears as one event, in program order.  External collaborators
(the version-control client, the terminal UI, the command-execution
capability) are modelled as oracles supplied as explicit parameters, per
the specification's collaborator contracts.
-/

namespace Wt

/-- Result of running an external command, mirroring `ExecResult` of
`src/core/git.ts` (`stdout`, `stderr`, `exitCode`). -/
structure ExecResult where
  stdout : String
  stderr : String
  exitCode : Int
  deriving Repr

/-- The command-execution capability injected into hook contexts
(`execAsync`): a command string and a working directory produce an
`ExecResult`.  Modelled as an oracle function. -/
structure ExecEnv where
  exec : String → String → ExecResult

/-- The closed enumeration of lifecycle hook names
(`HookName` in `src/plugins/types.ts`). -/
inductive HookName
  | beforeCreate
  | afterCreate
  | beforeMerge
  | afterMerge
  | beforeRemove
  | afterRemove
  deriving DecidableEq, Repr

/-- Rendering of a hook name used inside diagnostic labels
(string interpolation of the `hookName` value in `runner.ts`). -/
def HookName.str : HookName → String
  | .beforeCreate => "beforeCreate"
  | .afterCreate => "afterCreate"
  | .beforeMerge => "beforeMerge"
  | .afterMerge => "afterMerge"
  | .beforeRemove => "beforeRemove"
  | .afterRemove => "afterRemove"

/-- Data part of `HookContext` (`src/plugins/types.ts`); the `logger` and
`exec` capabilities are injected by the runner and modelled separately
(as trace events and as the `ExecEnv` oracle). -/
structure HookContext where
  repoRoot : String
  defaultBranch : String
  branchName : String
  worktreePath : String
  sourceWorktree : Option String := none
  targetWorktree : Option String := none
  deriving DecidableEq, Repr

/-- A user-supplied hook function is opaque code; the model records its
invocation (by `id`), whether the call throws, and the message of the
thrown error. -/
structure HookFn where
  id : String
  fails : Bool
  errMsg : String
  deriving DecidableEq, Repr

/-- One element of a hook value: a callable or a shell-command string
(`string | HookFunction` positions in `runner.ts`). -/
inductive HookItem
  | fn (f : HookFn)
  | cmd (s : String)
  deriving DecidableEq, Repr

/-- `HookValue` of `src/plugins/types.ts`: a single item or an ordered
list of items. -/
inductive HookValue
  | item (i : HookItem)
  | list (l : List HookItem)
  deriving DecidableEq, Repr

/-- `WtPlugin`: a diagnostic name plus an optional hook for each hook name
(`hooks?.[hookName]` lookup in `runner.ts`). -/
structure WtPlugin where
  name : String
  hooks : HookName → Option HookValue

/-- `WtSettings` with the defaults of `src/plugins/types.ts` applied. -/
structure WtSettings where
  copyGitIgnoredFiles : Bool
  copyNodeModules : Bool
  worktreePath : String
  deriving DecidableEq, Repr

/-- `defaultSettings` of `src/plugins/types.ts`. -/
def defaultSettings : WtSettings :=
  { copyGitIgnoredFiles := true
    copyNodeModules := false
    worktreePath := "../{repo}-{branch}" }

/-- `ResolvedConfig`: settings, ordered plugin list, inline hook map. -/
structure ResolvedConfig where
  settings : WtSettings
  plugins : List WtPlugin
  hooks : HookName → Option HookValue

/-- A worktree as reported by the VCS (`Worktree` in `src/core/git.ts`):
path, branch (absent when detached), detached flag. -/
structure Worktree where
  path : String
  branch : Option String
  isDetached : Bool
  deriving DecidableEq, Repr

/-- Observable effects, in program order.  Logger methods write to the
diagnostic channel (stderr); `stdoutLine` is the success channel
(`console.log`); `stderrLine` is a direct `console.error`; `hookInvoked`
marks a workflow's call into the lifecycle runner; the `vcs...` events are
the mutating VCS calls; `confirmAsked` is the interactive confirmation
prompt of the remove workflow. -/
inductive Event
  | fnRun (id : String)
  | cmdRun (cmd : String) (cwd : String)
  | stderrLine (s : String)
  | logInfo (msg : String)
  | logWarn (msg : String)
  | logError (msg : String)
  | logSuccess (msg : String)
  | stdoutLine (s : String)
  | hookInvoked (hn : HookName)
  | vcsMerge (branch : String) (cwd : String)
  | vcsRemoveWorktree (path : String)
  | vcsDeleteBranch (name : String)
  | confirmAsked (branch : String) (path : String)
  deriving DecidableEq, Repr

/-- `executeHookItem` of `runner.ts`: a command string is executed via the
capability with cwd = `ctx.worktreePath`, its output streamed line by line
to stderr, and a non-zero exit code raises an error carrying the command
text and exit code; a function is invoked and its thrown error (if any)
propagates.  The second component is the propagated error message. -/
def executeHookItem (henv : ExecEnv) (ctx : HookContext) :
    HookItem → List Event × Option String
  | .cmd s =>
    let r := henv.exec s ctx.worktreePath
    let outEvs := if r.stdout ≠ "" then (r.stdout.splitOn "\n").map Event.stderrLine else []
    let errEvs := if r.stderr ≠ "" then (r.stderr.splitOn "\n").map Event.stderrLine else []
    (Event.logInfo ("Running: " ++ s) :: Event.cmdRun s ctx.worktreePath ::
       (outEvs ++ errEvs),
     if r.exitCode ≠ 0 then
       some ("Command \"" ++ s ++ "\" failed with exit code " ++ toString r.exitCode)
     else none)
  | .fn f =>
    ([Event.fnRun f.id], if f.fails then some f.errMsg else none)

/-- The sequential loop of `executeHookValue` over an array hook value:
items run in order inside one try scope, so the first item that raises
aborts the remainder of the list and its error propagates. -/
def runItems (henv : ExecEnv) (ctx : HookContext) :
    List HookItem → List Event × Option String
  | [] => ([], none)
  | i :: rest =>
    let r := executeHookItem henv ctx i
    match r.2 with
    | some msg => (r.1, some msg)
    | none =>
      let r2 := runItems henv ctx rest
      (r.1 ++ r2.1, r2.2)

/-- Body of the `try` block of `executeHookValue`: dispatch on the shape
of the hook value. -/
def executeHookValueCore (henv : ExecEnv) (ctx : HookContext) :
    HookValue → List Event × Option String
  | .list l => runItems henv ctx l
  | .item i => executeHookItem henv ctx i

/-- `executeHookValue` of `runner.ts`: run the value's body and catch any
error, logging one warning tagged with the caller-supplied label.  No
error ever escapes (second component). -/
def executeHookValue (henv : ExecEnv) (ctx : HookContext) (label : String)
    (v : HookValue) : List Event × Option String :=
  let r := executeHookValueCore henv ctx v
  match r.2 with
  | some msg => (r.1 ++ [Event.logWarn (label ++ " failed: " ++ msg)], none)
  | none => (r.1, none)

/-- Label used for a plugin's hook (`Plugin "name" hookName hook`). -/
def pluginLabel (name : String) (hn : HookName) : String :=
  "Plugin \"" ++ name ++ "\" " ++ hn.str ++ " hook"

/-- Label used for the inline hook (`Inline hookName hook`). -/
def inlineLabel (hn : HookName) : String :=
  "Inline " ++ hn.str ++ " hook"

/-- The plugin loop of `runHooks`: each plugin that defines the hook is
executed via `executeHookValue`, awaited in plugin-list order; a thrown
error (were one possible) would propagate and skip later plugins. -/
def runPluginHooks (henv : ExecEnv) (hn : HookName) (ctx : HookContext) :
    List WtPlugin → List Event × Option String
  | [] => ([], none)
  | p :: ps =>
    match p.hooks hn with
    | none => runPluginHooks henv hn ctx ps
    | some v =>
      let r := executeHookValue henv ctx (pluginLabel p.name hn) v
      match r.2 with
      | some msg => (r.1, some msg)
      | none =>
        let rest := runPluginHooks henv hn ctx ps
        (r.1 ++ rest.1, rest.2)

/-- `runHooks` of `runner.ts`: all plugin hooks in order, then the inline
hook.  The second component is an error escaping to the caller. -/
def runHooks (henv : ExecEnv) (hn : HookName) (config : ResolvedConfig)
    (ctx : HookContext) : List Event × Option String :=
  let r := runPluginHooks henv hn ctx config.plugins
  match r.2 with
  | some msg => (r.1, some msg)
  | none =>
    match config.hooks hn with
    | none => (r.1, none)
    | some v =>
      let r2 := executeHookValue henv ctx (inlineLabel hn) v
      (r.1 ++ r2.1, r2.2)

/-- Trace contributed by one plugin for one hook name (used to state the
ordering contract). -/
def pluginHookEvents (henv : ExecEnv) (hn : HookName) (ctx : HookContext)
    (p : WtPlugin) : List Event :=
  match p.hooks hn with
  | none => []
  | some v => (executeHookValue henv ctx (pluginLabel p.name hn) v).1

/-- Trace contributed by the inline hook for one hook name. -/
def inlineHookEvents (henv : ExecEnv) (hn : HookName) (config : ResolvedConfig)
    (ctx : HookContext) : List Event :=
  match config.hooks hn with
  | none => []
  | some v => (executeHookValue henv ctx (inlineLabel hn) v).1

/-- Errors of `src/core/errors.ts` surfaced by the workflows.  `uncaught`
models a raw (non-`WtError`) exception reaching the command boundary,
which would happen only if the lifecycle runner let a hook error escape. -/
inductive WtErr
  | notInRepo
  | detachedHead
  | wtError (msg : String)
  | mergeConflict (targetBranch : String) (targetWorktree : String)
  | worktreeNotFound (branch : String)
  | onDefaultBranch (operation : String)
  | worktreeExists (path : String)
  | uncaught (msg : String)
  deriving DecidableEq, Repr

/-- The `VersionControlClient` collaborator plus the two process-global
reads the commands make (`process.cwd()` and repository queries).  Query
functions are oracles; the mutating calls (`mergeBranch`,
`removeWorktree`, `deleteBranch`) additionally leave a trace event at
their call sites in the workflow models. -/
structure Vcs where
  insideRepo : Bool
  cwd : String
  repoRoot : String
  defaultBranch : String
  currentBranch : Option String
  mainWorktree : Option Worktree
  listWorktrees : List Worktree
  findWorktreeByBranch : String → Option Worktree
  mergeBranch : String → String → ExecResult
  removeWorktree : String → ExecResult
  deleteBranch : String → ExecResult

/-- The interactive-terminal collaborator of the remove workflow:
whether stdin is a TTY, the selection UI, and the operator's answer to
the confirmation prompt (given branch and path). -/
structure Ui where
  isTTY : Bool
  select : List Worktree → Option Worktree
  answer : String → String → String

/-- Outcome of one command: its event trace and the error (if any)
reaching the command boundary. -/
abbrev CommandResult := List Event × Option WtErr

/-- Prepend events to a command continuation. -/
def emit (evs : List Event) (k : CommandResult) : CommandResult :=
  (evs ++ k.1, k.2)

/-- Command finished without error. -/
def finished : CommandResult := ([], none)

/-- Command aborted with a surfaced error. -/
def failedWith (e : WtErr) : CommandResult := ([], some e)

/-- One `await runHook(hn, ctx)` call site inside a workflow: the runner
invocation is recorded (`hookInvoked`), its trace is spliced in, and an
error escaping the runner would abort the rest of the command as an
uncaught exception. -/
def withHook (henv : ExecEnv) (config : ResolvedConfig) (hn : HookName)
    (ctx : HookContext) (k : CommandResult) : CommandResult :=
  let r := runHooks henv hn config ctx
  match r.2 with
  | some msg => (Event.hookInvoked hn :: r.1, some (.uncaught msg))
  | none => (Event.hookInvoked hn :: (r.1 ++ k.1), k.2)

/-- JavaScript string interpolation of a nullable branch name
(`null` prints as the string `null`). -/
def jsShow : Option String → String
  | some s => s
  | none => "null"

/-- `mergeCommand` of the merge workflow source: guard against merging
the default branch, run `beforeMerge`, attempt the merge in the primary
worktree, and on failure stay in place while on success optionally tear
down the worktree and branch around `beforeRemove`/`afterRemove`, ending
with `afterMerge`. -/
def mergeCommand (henv : ExecEnv) (vcs : Vcs) (config : ResolvedConfig)
    (keep : Bool) : CommandResult :=
  if vcs.insideRepo = false then failedWith .notInRepo
  else
    match vcs.currentBranch with
    | none => failedWith .detachedHead
    | some currentBranch =>
      if currentBranch = vcs.defaultBranch then
        failedWith (.wtError ("Already on " ++ vcs.defaultBranch ++ ", nothing to merge"))
      else
        match vcs.mainWorktree with
        | none => failedWith (.wtError "Could not find main worktree")
        | some mw =>
          let ctx : HookContext :=
            { repoRoot := vcs.repoRoot
              defaultBranch := vcs.defaultBranch
              branchName := currentBranch
              worktreePath := vcs.cwd
              targetWorktree := some mw.path }
          withHook henv config .beforeMerge ctx <|
          emit [Event.logInfo ("Merging \"" ++ currentBranch ++ "\" into \"" ++
                  vcs.defaultBranch ++ "\"..."),
                Event.vcsMerge currentBranch mw.path] <|
          let mr := vcs.mergeBranch currentBranch mw.path
          if mr.exitCode ≠ 0 then
            emit ([Event.logError "Merge failed!"]
              ++ (if mr.stderr ≠ "" then [Event.logError mr.stderr] else [])
              ++ (if mr.stdout ≠ "" then [Event.stderrLine mr.stdout] else [])
              ++ [Event.logError ("Resolve conflicts in " ++ mw.path ++
                    " then commit manually."),
                  Event.logInfo ("You are still in: " ++ vcs.cwd),
                  Event.stdoutLine vcs.cwd]) <|
            failedWith (.mergeConflict vcs.defaultBranch mw.path)
          else
            emit [Event.logSuccess ("Merged \"" ++ currentBranch ++ "\" into \"" ++
                    vcs.defaultBranch ++ "\"")] <|
            if keep then
              emit [Event.logInfo "Kept worktree and branch (--keep flag)"] <|
              withHook henv config .afterMerge ctx <|
              emit [Event.stdoutLine mw.path] finished
            else
              withHook henv config .beforeRemove ctx <|
              emit ([Event.logInfo ("Removing worktree at " ++ vcs.cwd ++ "..."),
                     Event.vcsRemoveWorktree vcs.cwd]
                ++ (if (vcs.removeWorktree vcs.cwd).exitCode ≠ 0 then
                      [Event.logWarn ("Failed to remove worktree: " ++
                        (vcs.removeWorktree vcs.cwd).stderr)]
                    else [])
                ++ [Event.vcsDeleteBranch currentBranch]
                ++ (if (vcs.deleteBranch currentBranch).exitCode ≠ 0 then
                      [Event.logWarn ("Failed to delete branch \"" ++ currentBranch ++
                        "\": " ++ (vcs.deleteBranch currentBranch).stderr)]
                    else
                      [Event.logInfo ("Deleted branch \"" ++ currentBranch ++ "\"")])) <|
              withHook henv config .afterRemove ctx <|
              withHook henv config .afterMerge ctx <|
              emit [Event.logSuccess ("Merged and cleaned up \"" ++ currentBranch ++ "\""),
                    Event.stdoutLine mw.path] finished

/-- `confirmRemoval` of the remove workflow: without a TTY the
confirmation resolves to declined after an error log; with one, the
operator is prompted and only a lowercase-`y` answer confirms. -/
def confirmRemoval (ui : Ui) (w : Worktree) : List Event × Bool :=
  if ui.isTTY = false then
    ([Event.logError "Cannot confirm in non-interactive mode. Use --force to skip confirmation."],
     false)
  else
    let branch := w.branch.getD "(detached)"
    ([Event.confirmAsked branch w.path],
     (ui.answer branch w.path).toLower = "y")

/-- `interactiveSelect` of the remove workflow: no TTY means no
selection; a single candidate is returned directly; otherwise the
terminal UI collaborator picks (or cancels). -/
def interactiveSelect (ui : Ui) (wts : List Worktree) :
    List Event × Option Worktree :=
  if ui.isTTY = false then
    ([Event.logError "No TTY available for interactive selection"], none)
  else
    match wts with
    | [w] => ([], some w)
    | _ => ([], ui.select wts)

/-- `RemoveOptions` of the remove workflow. -/
structure RemoveOptions where
  name : Option String := none
  force : Bool := false

/-- Outcome of resolving which worktree the remove workflow targets. -/
inductive RemoveResolution
  | cancelled (evs : List Event)
  | failed (e : WtErr)
  | target (evs : List Event) (w : Worktree)

/-- The resolution step of `removeCommand`: by branch name (failing with
a not-found error), or interactively among non-default-branch worktrees
(returning quietly when none exist or the operator cancels). -/
def resolveRemoveTarget (vcs : Vcs) (ui : Ui) (opts : RemoveOptions) :
    RemoveResolution :=
  match opts.name with
  | some n =>
    match vcs.findWorktreeByBranch n with
    | none => .failed (.worktreeNotFound n)
    | some w => .target [] w
  | none =>
    let nonDefault := vcs.listWorktrees.filter
      (fun w => w.branch ≠ some vcs.defaultBranch)
    if nonDefault.isEmpty then
      .cancelled [Event.logWarn "No worktrees available to remove (only default branch exists)"]
    else
      match interactiveSelect ui nonDefault with
      | (evs, none) => .cancelled evs
      | (evs, some w) => .target evs w

/-- `removeCommand` of the remove workflow source: resolve the target,
guard against the default-branch worktree, confirm unless forced, then
run `beforeRemove`, remove the worktree (fatal on failure), delete the
branch (warning only), and run `afterRemove`. -/
def removeCommand (henv : ExecEnv) (vcs : Vcs) (ui : Ui)
    (config : ResolvedConfig) (opts : RemoveOptions) : CommandResult :=
  if vcs.insideRepo = false then failedWith .notInRepo
  else
    match resolveRemoveTarget vcs ui opts with
    | .cancelled evs => (evs, none)
    | .failed e => failedWith e
    | .target evs w =>
      emit evs <|
      if w.branch = some vcs.defaultBranch then
        failedWith (.onDefaultBranch "remove")
      else
        let confirmPart : List Event × Bool :=
          if opts.force then ([], true) else confirmRemoval ui w
        emit confirmPart.1 <|
        if confirmPart.2 = false then
          emit [Event.logInfo "Cancelled"] finished
        else
          let ctx : HookContext :=
            { repoRoot := vcs.repoRoot
              defaultBranch := vcs.defaultBranch
              branchName := w.branch.getD ""
              worktreePath := w.path }
          withHook henv config .beforeRemove ctx <|
          emit [Event.logInfo ("Removing worktree at " ++ w.path ++ "..."),
                Event.vcsRemoveWorktree w.path] <|
          let rmRes := vcs.removeWorktree w.path
          if rmRes.exitCode ≠ 0 then
            failedWith (.wtError ("Failed to remove worktree: " ++ rmRes.stderr))
          else
            emit (match w.branch with
              | some b =>
                [Event.logInfo ("Deleting branch " ++ b ++ "..."),
                 Event.vcsDeleteBranch b]
                ++ (if (vcs.deleteBranch b).exitCode ≠ 0 then
                      [Event.logWarn ("Could not delete branch: " ++
                        (vcs.deleteBranch b).stderr)]
                    else [])
              | none => []) <|
            withHook henv config .afterRemove ctx <|
            emit [Event.logSuccess ("Removed worktree '" ++ jsShow w.branch ++
                    "' at " ++ w.path)] finished

/-- Template variables of `resolveWorktreePath` in `src/commands/create.ts`. -/
structure PathVars where
  repo : String
  branch : String
  parent : String
  deriving DecidableEq, Repr

/-- Scan of global string replacement, counting down explicit fuel (one
unit per consumed character): at each position, a match of the pattern
emits the replacement and skips past the match, exactly as a
`replace(/pattern/g, replacement)` with a literal pattern does. -/
def replaceAux (pat repl : List Char) : Nat → List Char → List Char
  | _, [] => []
  | 0, s => s
  | Nat.succ fuel, c :: rest =>
    if pat.isPrefixOf (c :: rest) then
      repl ++ replaceAux pat repl fuel ((c :: rest).drop pat.length)
    else
      c :: replaceAux pat repl fuel rest

/-- Replacement of every occurrence of a (non-empty) literal pattern,
the semantics of `.replace(/pattern/g, replacement)`. -/
def replaceAllStr (s pattern repl : String) : String :=
  if pattern.data = [] then s
  else ⟨replaceAux pattern.data repl.data s.data.length s.data⟩

/-- `resolveWorktreePath` of `src/commands/create.ts`: global substitution
of the three tokens, in source order. -/
def resolveWorktreePath (pattern : String) (vars : PathVars) : String :=
  replaceAllStr
    (replaceAllStr (replaceAllStr pattern "{repo}" vars.repo)
      "{branch}" vars.branch)
    "{parent}" vars.parent

/-- Split of a character list at every slash. -/
def splitSlash : List Char → List (List Char)
  | [] => [[]]
  | c :: rest =>
    match splitSlash rest with
    | [] => [[c]]
    | seg :: segs =>
      if c = '/' then [] :: seg :: segs else (c :: seg) :: segs

/-- Path components of a POSIX path (empty components dropped). -/
def splitPath (p : String) : List String :=
  ((splitSlash p.data).map fun l => String.mk l).filter (fun s => s ≠ "")

/-- Whether a POSIX path is absolute. -/
def startsWithSlash (p : String) : Bool :=
  match p.data with
  | c :: _ => c = '/'
  | [] => false

/-- One step of POSIX path normalisation: `.` is dropped, `..` removes
the previous component, other components accumulate. -/
def normStep (acc : List String) (seg : String) : List String :=
  if seg = "." then acc
  else if seg = ".." then acc.dropLast
  else acc ++ [seg]

/-- Normalisation of POSIX path components. -/
def normSegs (segs : List String) : List String :=
  segs.foldl normStep []

/-- Render an absolute path from its components. -/
def joinAbs (segs : List String) : String :=
  "/" ++ String.intercalate "/" segs

/-- Model of Node's `path.resolve(base, rel)` for an absolute `base`
(as `process.cwd()` always is). -/
def pathResolve (base rel : String) : String :=
  if startsWithSlash rel then joinAbs (normSegs (splitPath rel))
  else joinAbs (normSegs (splitPath base ++ splitPath rel))

/-- Model of Node's `path.dirname` for an absolute path. -/
def dirname (p : String) : String :=
  joinAbs ((splitPath p).dropLast)

/-- The worktree-path computation of `createCommand`
(`src/commands/create.ts` lines 44 and 50-56): substitute the template
with repo name, branch and the repository root's parent directory, then
resolve the result against the invocation's working directory. -/
def createWorktreePathOf (cwd repoRoot repoName pattern branch : String) : String :=
  pathResolve cwd
    (resolveWorktreePath pattern
      { repo := repoName, branch := branch, parent := dirname repoRoot })

/-- Projection of a trace to the workflow-level operations: lifecycle
runner invocations, mutating VCS calls and success-channel lines.
Diagnostic output and hook-internal effects are dropped. -/
inductive Op
  | hook (hn : HookName)
  | merge (branch : String) (cwd : String)
  | rmWorktree (path : String)
  | delBranch (name : String)
  | out (line : String)
  deriving DecidableEq, Repr

/-- The operation (if any) an event corresponds to. -/
def opOfEvent : Event → Option Op
  | .hookInvoked hn => some (.hook hn)
  | .vcsMerge b c => some (.merge b c)
  | .vcsRemoveWorktree p => some (.rmWorktree p)
  | .vcsDeleteBranch n => some (.delBranch n)
  | .stdoutLine s => some (.out s)
  | _ => none

/-- Workflow-level operations of a trace, in order. -/
def opsOf (tr : List Event) : List Op :=
  tr.filterMap opOfEvent

theorem opsOf_append (a b : List Event) : opsOf (a ++ b) = opsOf a ++ opsOf b :=
  List.filterMap_append a b opOfEvent

theorem opsOf_cons (e : Event) (tr : List Event) :
    opsOf (e :: tr) = (opOfEvent e).toList ++ opsOf tr := by
  cases h : opOfEvent e <;> simp [opsOf, List.filterMap_cons, h]

theorem opsOf_eq_nil {tr : List Event} (h : ∀ e ∈ tr, opOfEvent e = none) :
    opsOf tr = [] := by
  induction tr with
  | nil => rfl
  | cons e rest ih =>
    have he := h e (by simp)
    simp only [opsOf, List.filterMap_cons, he]
    exact ih fun x hx => h x (by simp [hx])

theorem executeHookValue_snd (henv : ExecEnv) (ctx : HookContext)
    (label : String) (v : HookValue) :
    (executeHookValue henv ctx label v).2 = none := by
  unfold executeHookValue
  cases h : (executeHookValueCore henv ctx v).2 <;> simp [h]

theorem runPluginHooks_snd (henv : ExecEnv) (hn : HookName) (ctx : HookContext)
    (ps : List WtPlugin) : (runPluginHooks henv hn ctx ps).2 = none := by
  induction ps with
  | nil => rfl
  | cons p ps ih =>
    unfold runPluginHooks
    cases hp : p.hooks hn with
    | none => simpa only [hp] using ih
    | some v =>
      simp only [hp, executeHookValue_snd]
      exact ih

/-- The lifecycle runner never lets a hook error escape to the invoking
workflow. -/
theorem runHooks_snd (henv : ExecEnv) (hn : HookName) (config : ResolvedConfig)
    (ctx : HookContext) : (runHooks henv hn config ctx).2 = none := by
  unfold runHooks
  simp only [runPluginHooks_snd]
  cases hin : config.hooks hn with
  | none => rfl
  | some v => simp [executeHookValue_snd]

theorem runPluginHooks_fst (henv : ExecEnv) (hn : HookName) (ctx : HookContext)
    (ps : List WtPlugin) :
    (runPluginHooks henv hn ctx ps).1 =
      (ps.map (pluginHookEvents henv hn ctx)).flatten := by
  induction ps with
  | nil => rfl
  | cons p ps ih =>
    unfold runPluginHooks
    cases hp : p.hooks hn with
    | none => simp only [List.map_cons, List.flatten_cons, pluginHookEvents, hp,
        List.nil_append]; exact ih
    | some v =>
      simp only [hp, executeHookValue_snd, List.map_cons, List.flatten_cons,
        pluginHookEvents, ih]

theorem runHooks_fst (henv : ExecEnv) (hn : HookName) (config : ResolvedConfig)
    (ctx : HookContext) :
    (runHooks henv hn config ctx).1 =
      (config.plugins.map (pluginHookEvents henv hn ctx)).flatten ++
        inlineHookEvents henv hn config ctx := by
  unfold runHooks
  simp only [runPluginHooks_snd]
  cases hin : config.hooks hn with
  | none => simp [inlineHookEvents, hin, runPluginHooks_fst]
  | some v => simp [inlineHookEvents, hin, runPluginHooks_fst]

theorem executeHookItem_inner (henv : ExecEnv) (ctx : HookContext) (i : HookItem) :
    ∀ e ∈ (executeHookItem henv ctx i).1, opOfEvent e = none := by
  intro e he
  cases i with
  | fn f =>
    simp only [executeHookItem, List.mem_singleton] at he
    subst he; rfl
  | cmd s =>
    simp only [executeHookItem, List.mem_cons, List.mem_append] at he
    rcases he with rfl | rfl | he | he
    · rfl
    · rfl
    · split at he
      · obtain ⟨x, -, rfl⟩ := List.mem_map.mp he
        rfl
      · simp at he
    · split at he
      · obtain ⟨x, -, rfl⟩ := List.mem_map.mp he
        rfl
      · simp at he

theorem runItems_inner (henv : ExecEnv) (ctx : HookContext) (l : List HookItem) :
    ∀ e ∈ (runItems henv ctx l).1, opOfEvent e = none := by
  induction l with
  | nil => intro e he; simp [runItems] at he
  | cons i rest ih =>
    intro e he
    have hi := executeHookItem_inner henv ctx i
    unfold runItems at he
    cases hx : (executeHookItem henv ctx i).2 with
    | some msg =>
      simp only [hx] at he
      exact hi e he
    | none =>
      simp only [hx, List.mem_append] at he
      rcases he with he | he
      · exact hi e he
      · exact ih e he

theorem executeHookValueCore_inner (henv : ExecEnv) (ctx : HookContext)
    (v : HookValue) :
    ∀ e ∈ (executeHookValueCore henv ctx v).1, opOfEvent e = none := by
  cases v with
  | item i => exact executeHookItem_inner henv ctx i
  | list l => exact runItems_inner henv ctx l

theorem executeHookValue_inner (henv : ExecEnv) (ctx : HookContext)
    (label : String) (v : HookValue) :
    ∀ e ∈ (executeHookValue henv ctx label v).1, opOfEvent e = none := by
  intro e he
  have hc := executeHookValueCore_inner henv ctx v
  unfold executeHookValue at he
  cases hx : (executeHookValueCore henv ctx v).2 with
  | some msg =>
    simp only [hx, List.mem_append, List.mem_singleton] at he
    rcases he with he | rfl
    · exact hc e he
    · rfl
  | none =>
    simp only [hx] at he
    exact hc e he

theorem runHooks_inner (henv : ExecEnv) (hn : HookName) (config : ResolvedConfig)
    (ctx : HookContext) :
    ∀ e ∈ (runHooks henv hn config ctx).1, opOfEvent e = none := by
  intro e he
  rw [runHooks_fst] at he
  rcases List.mem_append.mp he with he | he
  · obtain ⟨l, hl, hel⟩ := List.mem_flatten.mp he
    obtain ⟨p, -, rfl⟩ := List.mem_map.mp hl
    unfold pluginHookEvents at hel
    cases hp : p.hooks hn with
    | none => rw [hp] at hel; simp at hel
    | some v =>
      rw [hp] at hel
      exact executeHookValue_inner henv ctx (pluginLabel p.name hn) v e hel
  · unfold inlineHookEvents at he
    cases hin : config.hooks hn with
    | none => rw [hin] at he; simp at he
    | some v =>
      rw [hin] at he
      exact executeHookValue_inner henv ctx (inlineLabel hn) v e he

/-- Hook execution contributes no workflow-level operations to a trace. -/
theorem opsOf_runHooks (henv : ExecEnv) (hn : HookName) (config : ResolvedConfig)
    (ctx : HookContext) : opsOf (runHooks henv hn config ctx).1 = [] :=
  opsOf_eq_nil (runHooks_inner henv hn config ctx)

/-- A hook call site in a workflow: the runner is invoked, its trace is
spliced in, and the continuation's outcome is preserved. -/
theorem withHook_eq (henv : ExecEnv) (config : ResolvedConfig) (hn : HookName)
    (ctx : HookContext) (k : CommandResult) :
    withHook henv config hn ctx k =
      (Event.hookInvoked hn :: ((runHooks henv hn config ctx).1 ++ k.1), k.2) := by
  unfold withHook
  have h := runHooks_snd henv hn config ctx
  rcases hx : runHooks henv hn config ctx with ⟨evs, err⟩
  rw [hx] at h
  cases err with
  | some msg => simp at h
  | none => simp

theorem opsOf_withHook (henv : ExecEnv) (config : ResolvedConfig) (hn : HookName)
    (ctx : HookContext) (k : CommandResult) :
    opsOf (withHook henv config hn ctx k).1 = Op.hook hn :: opsOf k.1 := by
  rw [withHook_eq]
  simp only [opsOf_cons, opsOf_append, opsOf_runHooks, opOfEvent]
  simp [Option.toList]

/-- Whether an event is an advisory-failure warning on the diagnostic
channel. -/
def isWarn : Event → Bool
  | .logWarn _ => true
  | _ => false

/-- The trace of a command-string hook item consists of the run
announcement, the execution record, and streamed output lines. -/
theorem cmdItem_events (henv : ExecEnv) (ctx : HookContext) (s : String) :
    ∀ e ∈ (executeHookItem henv ctx (.cmd s)).1,
      e = Event.logInfo ("Running: " ++ s) ∨
      e = Event.cmdRun s ctx.worktreePath ∨
      ∃ x, e = Event.stderrLine x := by
  intro e he
  simp only [executeHookItem, List.mem_cons, List.mem_append] at he
  rcases he with rfl | rfl | he | he
  · exact Or.inl rfl
  · exact Or.inr (Or.inl rfl)
  · refine Or.inr (Or.inr ?_)
    split at he
    · obtain ⟨x, -, rfl⟩ := List.mem_map.mp he
      exact ⟨x, rfl⟩
    · simp at he
  · refine Or.inr (Or.inr ?_)
    split at he
    · obtain ⟨x, -, rfl⟩ := List.mem_map.mp he
      exact ⟨x, rfl⟩
    · simp at he

theorem cmdItem_no_fnRun (henv : ExecEnv) (ctx : HookContext) (s i : String) :
    Event.fnRun i ∉ (executeHookItem henv ctx (.cmd s)).1 := by
  intro he
  rcases cmdItem_events henv ctx s _ he with h | h | ⟨x, h⟩ <;> simp at h

theorem cmdItem_warnFree (henv : ExecEnv) (ctx : HookContext) (s : String) :
    (executeHookItem henv ctx (.cmd s)).1.countP isWarn = 0 := by
  rw [List.countP_eq_zero]
  intro e he
  rcases cmdItem_events henv ctx s e he with rfl | rfl | ⟨x, rfl⟩ <;> simp [isWarn]

theorem cmdItem_mem_cmdRun (henv : ExecEnv) (ctx : HookContext) (s : String) :
    Event.cmdRun s ctx.worktreePath ∈ (executeHookItem henv ctx (.cmd s)).1 := by
  simp [executeHookItem]

/-- C1: for every hook name, configuration (plugins each optionally
defining the hook, plus an optional inline hook) and context, the
Lifecycle Runner's trace is exactly the concatenation of each plugin's
hook execution in plugin-list order followed by the inline hook's
execution — whatever any individual hook does — and no hook error escapes
to the invoking workflow (`runHooks` returns `none`). -/
theorem runHooks_plugin_order_total (henv : ExecEnv) (hn : HookName)
    (config : ResolvedConfig) (ctx : HookContext) :
    runHooks henv hn config ctx =
      ((config.plugins.map (pluginHookEvents henv hn ctx)).flatten ++
         inlineHookEvents henv hn config ctx,
       none) :=
  Prod.ext (runHooks_fst henv hn config ctx) (runHooks_snd henv hn config ctx)

/-- C3: running a lifecycle event whose inline hook is the list
[fn1, "exit 1", fn2] (fn1 succeeding, the command exiting non-zero) runs
fn1, executes the failing command, never runs fn2, and reports exactly
one advisory warning for the whole list. -/
theorem runHooks_inline_list_single_failure (henv : ExecEnv) (hn : HookName)
    (st : WtSettings) (hmap : HookName → Option HookValue) (ctx : HookContext)
    (f1 f2 : HookFn)
    (hf1 : f1.fails = false)
    (hid : f1.id ≠ f2.id)
    (hcmd : (henv.exec "exit 1" ctx.worktreePath).exitCode ≠ 0)
    (hmk : hmap hn = some (.list [.fn f1, .cmd "exit 1", .fn f2])) :
    Event.fnRun f1.id ∈
        (runHooks henv hn ⟨st, [], hmap⟩ ctx).1 ∧
      Event.cmdRun "exit 1" ctx.worktreePath ∈
        (runHooks henv hn ⟨st, [], hmap⟩ ctx).1 ∧
      Event.fnRun f2.id ∉
        (runHooks henv hn ⟨st, [], hmap⟩ ctx).1 ∧
      ((runHooks henv hn ⟨st, [], hmap⟩ ctx).1.countP isWarn) = 1 := by
  have hitem1 : executeHookItem henv ctx (.fn f1) = ([Event.fnRun f1.id], none) := by
    simp [executeHookItem, hf1]
  have htr : (runHooks henv hn ⟨st, [], hmap⟩ ctx).1 =
      Event.fnRun f1.id :: ((executeHookItem henv ctx (.cmd "exit 1")).1 ++
        [Event.logWarn (inlineLabel hn ++ " failed: " ++
          ("Command \"exit 1\" failed with exit code " ++
            toString (henv.exec "exit 1" ctx.worktreePath).exitCode))]) := by
    unfold runHooks runPluginHooks
    simp only [hmk, executeHookValue, executeHookValueCore]
    unfold runItems
    simp only [hitem1]
    unfold runItems
    simp [executeHookItem, hcmd]
  rw [htr]
  refine ⟨by simp, ?_, ?_, ?_⟩
  · simp [cmdItem_mem_cmdRun henv ctx "exit 1"]
  · intro hmem
    simp only [List.mem_cons, List.mem_append, List.mem_singleton] at hmem
    rcases hmem with h | h | h
    · exact hid (by injection h.symm)
    · exact cmdItem_no_fnRun henv ctx "exit 1" f2.id h
    · simp at h
  · simp [List.countP_cons, List.countP_append, cmdItem_warnFree, isWarn]

/-- An execution capability whose every command succeeds silently, for
concrete runs. -/
def execEnvOk : ExecEnv := ⟨fun _ _ => ⟨"", "", 0⟩⟩

/-- A concrete hook context for concrete runs. -/
def ctxDemo : HookContext :=
  { repoRoot := "/repo"
    defaultBranch := "main"
    branchName := "feature-x"
    worktreePath := "/repo-feature-x"
    sourceWorktree := some "/repo" }

/-- Witness for C3 at a concrete configuration. -/
theorem runHooks_inline_list_single_failure_demo :
    Event.fnRun "first" ∈
        (runHooks ⟨fun _ _ => ⟨"", "", 1⟩⟩ .afterCreate
          ⟨defaultSettings, [],
            fun _ => some (.list [.fn ⟨"first", false, ""⟩, .cmd "exit 1",
              .fn ⟨"second", false, ""⟩])⟩ ctxDemo).1 ∧
      Event.cmdRun "exit 1" ctxDemo.worktreePath ∈
        (runHooks ⟨fun _ _ => ⟨"", "", 1⟩⟩ .afterCreate
          ⟨defaultSettings, [],
            fun _ => some (.list [.fn ⟨"first", false, ""⟩, .cmd "exit 1",
              .fn ⟨"second", false, ""⟩])⟩ ctxDemo).1 ∧
      Event.fnRun "second" ∉
        (runHooks ⟨fun _ _ => ⟨"", "", 1⟩⟩ .afterCreate
          ⟨defaultSettings, [],
            fun _ => some (.list [.fn ⟨"first", false, ""⟩, .cmd "exit 1",
              .fn ⟨"second", false, ""⟩])⟩ ctxDemo).1 ∧
      ((runHooks ⟨fun _ _ => ⟨"", "", 1⟩⟩ .afterCreate
          ⟨defaultSettings, [],
            fun _ => some (.list [.fn ⟨"first", false, ""⟩, .cmd "exit 1",
              .fn ⟨"second", false, ""⟩])⟩ ctxDemo).1.countP isWarn) = 1 :=
  runHooks_inline_list_single_failure ⟨fun _ _ => ⟨"", "", 1⟩⟩ .afterCreate
    defaultSettings _ ctxDemo ⟨"first", false, ""⟩ ⟨"second", false, ""⟩
    rfl (by decide) (by decide) rfl

/-- C4 counterexample: with the list [throwing function, second
function], the second function is never executed — a failing function
element does halt the remainder of its list, contrary to the claim. -/
theorem hook_list_fn_failure_refute :
    Event.fnRun "second" ∉
      (executeHookValue execEnvOk ctxDemo "Inline afterCreate hook"
        (.list [.fn ⟨"first", true, "boom"⟩, .fn ⟨"second", false, ""⟩])).1 := by
  decide

/-- C4 as amended: inside one hook list, everything after a throwing
function element is dead — appending further elements after it changes
neither the trace nor the propagated error, exactly as for a failing
command element. -/
theorem runItems_fn_failure_halts (henv : ExecEnv) (ctx : HookContext)
    (l1 l2 : List HookItem) (f : HookFn) (hf : f.fails = true) :
    runItems henv ctx (l1 ++ HookItem.fn f :: l2) =
      runItems henv ctx (l1 ++ [HookItem.fn f]) := by
  induction l1 with
  | nil =>
    simp only [List.nil_append]
    unfold runItems
    simp [executeHookItem, hf]
  | cons i is ih =>
    simp only [List.cons_append]
    unfold runItems
    cases hx : (executeHookItem henv ctx i).2 <;> simp [hx, ih]

theorem opsOf_emit (evs : List Event) (k : CommandResult) :
    opsOf (emit evs k).1 = opsOf evs ++ opsOf k.1 :=
  opsOf_append evs k.1

theorem emit_snd (evs : List Event) (k : CommandResult) : (emit evs k).2 = k.2 := rfl

theorem withHook_snd (henv : ExecEnv) (config : ResolvedConfig) (hn : HookName)
    (ctx : HookContext) (k : CommandResult) :
    (withHook henv config hn ctx k).2 = k.2 := by
  rw [withHook_eq]

/-- C2: whenever the VCS rejects the merge, the merge workflow performs
exactly the `beforeMerge` runner invocation, the merge attempt, and one
success-channel line equal to the operator's pre-merge working
directory — no `beforeRemove`/`afterRemove`/`afterMerge` invocation, no
worktree removal, no branch deletion — and it raises a merge-conflict
error carrying the default branch and the target worktree path. -/
theorem mergeCommand_conflict_path (henv : ExecEnv) (vcs : Vcs)
    (config : ResolvedConfig) (keep : Bool) (b : String) (mw : Worktree)
    (hrepo : vcs.insideRepo = true)
    (hcb : vcs.currentBranch = some b)
    (hne : b ≠ vcs.defaultBranch)
    (hmw : vcs.mainWorktree = some mw)
    (hfail : (vcs.mergeBranch b mw.path).exitCode ≠ 0) :
    (mergeCommand henv vcs config keep).2 =
        some (.mergeConflict vcs.defaultBranch mw.path) ∧
      opsOf (mergeCommand henv vcs config keep).1 =
        [Op.hook .beforeMerge, Op.merge b mw.path, Op.out vcs.cwd] := by
  constructor
  · unfold mergeCommand
    simp [hrepo, hcb, hmw, hne, hfail, withHook_snd, emit_snd, failedWith]
  · unfold mergeCommand
    simp only [hrepo, Bool.true_eq_false, if_false, hcb, hmw, if_neg hne, hfail,
      if_pos, ite_true, if_true]
    rw [opsOf_withHook]
    simp only [opsOf_emit, emit_snd]
    simp only [opsOf, List.filterMap_cons, List.filterMap_append, opOfEvent]
    split_ifs <;> simp [emit, failedWith, opOfEvent, List.filterMap_cons]

/-- C6: invoking the merge workflow while the current branch equals the
default branch fails immediately with the guard error; the trace is
empty, so no VCS operation was performed and no hook ran. -/
theorem mergeCommand_default_branch_guard (henv : ExecEnv) (vcs : Vcs)
    (config : ResolvedConfig) (keep : Bool)
    (hrepo : vcs.insideRepo = true)
    (hcb : vcs.currentBranch = some vcs.defaultBranch) :
    mergeCommand henv vcs config keep =
      ([], some (.wtError ("Already on " ++ vcs.defaultBranch ++
        ", nothing to merge"))) := by
  unfold mergeCommand
  simp [hrepo, hcb, failedWith]

/-- C8: when the merge succeeds and keep was requested, the workflow
performs exactly the `beforeMerge` invocation, the merge, the
`afterMerge` invocation and one success-channel line with the primary
worktree path — in particular no worktree removal, no branch deletion,
and no `beforeRemove`/`afterRemove` invocation — and returns without
error. -/
theorem mergeCommand_keep_path (henv : ExecEnv) (vcs : Vcs)
    (config : ResolvedConfig) (b : String) (mw : Worktree)
    (hrepo : vcs.insideRepo = true)
    (hcb : vcs.currentBranch = some b)
    (hne : b ≠ vcs.defaultBranch)
    (hmw : vcs.mainWorktree = some mw)
    (hok : (vcs.mergeBranch b mw.path).exitCode = 0) :
    (mergeCommand henv vcs config true).2 = none ∧
      opsOf (mergeCommand henv vcs config true).1 =
        [Op.hook .beforeMerge, Op.merge b mw.path, Op.hook .afterMerge,
         Op.out mw.path] := by
  constructor
  · unfold mergeCommand
    simp [hrepo, hcb, hmw, hne, hok, withHook_snd, emit_snd, finished]
  · unfold mergeCommand
    simp [hrepo, hcb, hmw, hne, hok]
    simp only [opsOf_withHook, opsOf_emit]
    simp [opsOf, opOfEvent, finished]

/-- C5: when the merge succeeds and keep was not requested, the
workflow-level operations are exactly `beforeMerge`, the merge,
`beforeRemove`, the worktree removal, the branch deletion, `afterRemove`,
`afterMerge` and one success-channel line with the primary worktree
path — whatever exit codes the removal and deletion return — the command
returns without error, and a non-zero exit of either advisory call is
logged as a warning. -/
theorem mergeCommand_cleanup_path (henv : ExecEnv) (vcs : Vcs)
    (config : ResolvedConfig) (b : String) (mw : Worktree)
    (hrepo : vcs.insideRepo = true)
    (hcb : vcs.currentBranch = some b)
    (hne : b ≠ vcs.defaultBranch)
    (hmw : vcs.mainWorktree = some mw)
    (hok : (vcs.mergeBranch b mw.path).exitCode = 0) :
    (mergeCommand henv vcs config false).2 = none ∧
      opsOf (mergeCommand henv vcs config false).1 =
        [Op.hook .beforeMerge, Op.merge b mw.path, Op.hook .beforeRemove,
         Op.rmWorktree vcs.cwd, Op.delBranch b, Op.hook .afterRemove,
         Op.hook .afterMerge, Op.out mw.path] ∧
      ((vcs.removeWorktree vcs.cwd).exitCode ≠ 0 →
        Event.logWarn ("Failed to remove worktree: " ++
            (vcs.removeWorktree vcs.cwd).stderr) ∈
          (mergeCommand henv vcs config false).1) ∧
      ((vcs.deleteBranch b).exitCode ≠ 0 →
        Event.logWarn ("Failed to delete branch \"" ++ b ++ "\": " ++
            (vcs.deleteBranch b).stderr) ∈
          (mergeCommand henv vcs config false).1) := by
  refine ⟨?_, ?_, ?_, ?_⟩
  · unfold mergeCommand
    simp [hrepo, hcb, hmw, hne, hok, withHook_snd, emit_snd, finished]
  · unfold mergeCommand
    simp [hrepo, hcb, hmw, hne, hok]
    simp only [opsOf_withHook, opsOf_emit]
    split_ifs <;> simp [opsOf, opOfEvent, finished]
  · intro hrm
    unfold mergeCommand
    simp [hrepo, hcb, hmw, hne, hok]
    rw [withHook_eq]
    simp [emit, withHook_eq, finished, hrm]
  · intro hdel
    unfold mergeCommand
    simp [hrepo, hcb, hmw, hne, hok]
    rw [withHook_eq]
    simp [emit, withHook_eq, finished, hdel]

/-- Witness for the amended C4 at a concrete list. -/
theorem runItems_fn_failure_halts_demo :
    (⟨"boomFn", true, "boom"⟩ : HookFn).fails = true ∧
      runItems execEnvOk ctxDemo
          ([HookItem.fn ⟨"a", false, ""⟩] ++ HookItem.fn ⟨"boomFn", true, "boom"⟩ ::
            [HookItem.fn ⟨"b", false, ""⟩]) =
        runItems execEnvOk ctxDemo
          ([HookItem.fn ⟨"a", false, ""⟩] ++ [HookItem.fn ⟨"boomFn", true, "boom"⟩]) :=
  ⟨rfl, runItems_fn_failure_halts execEnvOk ctxDemo _ _ _ rfl⟩

/-- C7: a remove invocation that resolves (by branch name) to the
worktree of the default branch fails with the default-branch guard error
before any confirmation, hook, worktree removal or branch deletion, for
every value of the force flag: the trace is empty. -/
theorem removeCommand_default_branch_guard (henv : ExecEnv) (vcs : Vcs)
    (ui : Ui) (config : ResolvedConfig) (n : String) (force : Bool)
    (w : Worktree)
    (hrepo : vcs.insideRepo = true)
    (hfind : vcs.findWorktreeByBranch n = some w)
    (hbr : w.branch = some vcs.defaultBranch) :
    removeCommand henv vcs ui config ⟨some n, force⟩ =
      ([], some (.onDefaultBranch "remove")) := by
  unfold removeCommand resolveRemoveTarget
  simp [hrepo, hfind, hbr, emit, failedWith]

/-- C10: a remove invocation without the force flag, resolved by branch
name to a non-default-branch worktree, with no TTY on standard input:
the confirmation resolves to declined and the command returns without
error after only two diagnostic lines — no hook runs, no worktree is
removed and no branch is deleted. -/
theorem removeCommand_non_tty_decline (henv : ExecEnv) (vcs : Vcs) (ui : Ui)
    (config : ResolvedConfig) (n : String) (w : Worktree)
    (hrepo : vcs.insideRepo = true)
    (hfind : vcs.findWorktreeByBranch n = some w)
    (hbr : w.branch ≠ some vcs.defaultBranch)
    (htty : ui.isTTY = false) :
    removeCommand henv vcs ui config ⟨some n, false⟩ =
      ([Event.logError
          "Cannot confirm in non-interactive mode. Use --force to skip confirmation.",
        Event.logInfo "Cancelled"], none) := by
  unfold removeCommand resolveRemoveTarget confirmRemoval
  simp [hrepo, hfind, hbr, htty, emit, finished]

/-- A concrete configuration with no plugins and no inline hooks. -/
def configDemo : ResolvedConfig := ⟨defaultSettings, [], fun _ => none⟩

/-- A concrete VCS oracle: one feature worktree beside the primary one,
merging rejected with a conflict. -/
def vcsConflict : Vcs :=
  { insideRepo := true
    cwd := "/w/repo-feature"
    repoRoot := "/w/repo"
    defaultBranch := "main"
    currentBranch := some "feature"
    mainWorktree := some ⟨"/w/repo", some "main", false⟩
    listWorktrees := [⟨"/w/repo", some "main", false⟩,
                      ⟨"/w/repo-feature", some "feature", false⟩]
    findWorktreeByBranch := fun n =>
      if n = "feature" then some ⟨"/w/repo-feature", some "feature", false⟩
      else if n = "main" then some ⟨"/w/repo", some "main", false⟩
      else none
    mergeBranch := fun _ _ => ⟨"", "CONFLICT (content): merge conflict", 1⟩
    removeWorktree := fun _ => ⟨"", "", 0⟩
    deleteBranch := fun _ => ⟨"", "", 0⟩ }

/-- Like `vcsConflict` but the merge succeeds while worktree removal and
branch deletion fail with non-zero exits. -/
def vcsMergeOk : Vcs :=
  { vcsConflict with
    mergeBranch := fun _ _ => ⟨"", "", 0⟩
    removeWorktree := fun _ => ⟨"", "worktree dir not empty", 1⟩
    deleteBranch := fun _ => ⟨"", "branch not fully merged", 1⟩ }

/-- Like `vcsConflict` but the operator sits on the default branch. -/
def vcsOnMain : Vcs :=
  { vcsConflict with
    cwd := "/w/repo"
    currentBranch := some "main" }

/-- A terminal without a TTY on standard input. -/
def uiNoTty : Ui := ⟨false, fun _ => none, fun _ _ => ""⟩

/-- Witness for C2 at a concrete conflicting merge. -/
theorem mergeCommand_conflict_path_demo :
    (mergeCommand execEnvOk vcsConflict configDemo false).2 =
        some (.mergeConflict vcsConflict.defaultBranch "/w/repo") ∧
      opsOf (mergeCommand execEnvOk vcsConflict configDemo false).1 =
        [Op.hook .beforeMerge, Op.merge "feature" "/w/repo",
         Op.out vcsConflict.cwd] :=
  mergeCommand_conflict_path execEnvOk vcsConflict configDemo false "feature"
    ⟨"/w/repo", some "main", false⟩ rfl rfl (by decide) rfl (by decide)

/-- Witness for C6 at a concrete invocation from the default branch. -/
theorem mergeCommand_default_branch_guard_demo :
    mergeCommand execEnvOk vcsOnMain configDemo false =
      ([], some (.wtError ("Already on " ++ vcsOnMain.defaultBranch ++
        ", nothing to merge"))) :=
  mergeCommand_default_branch_guard execEnvOk vcsOnMain configDemo false rfl rfl

/-- Witness for C8 at a concrete successful merge with keep requested. -/
theorem mergeCommand_keep_path_demo :
    (mergeCommand execEnvOk vcsMergeOk configDemo true).2 = none ∧
      opsOf (mergeCommand execEnvOk vcsMergeOk configDemo true).1 =
        [Op.hook .beforeMerge, Op.merge "feature" "/w/repo",
         Op.hook .afterMerge, Op.out "/w/repo"] :=
  mergeCommand_keep_path execEnvOk vcsMergeOk configDemo "feature"
    ⟨"/w/repo", some "main", false⟩ rfl rfl (by decide) rfl rfl

/-- Witness for C5 at a concrete successful merge whose advisory cleanup
calls both fail. -/
theorem mergeCommand_cleanup_path_demo :
    (mergeCommand execEnvOk vcsMergeOk configDemo false).2 = none ∧
      opsOf (mergeCommand execEnvOk vcsMergeOk configDemo false).1 =
        [Op.hook .beforeMerge, Op.merge "feature" "/w/repo",
         Op.hook .beforeRemove, Op.rmWorktree vcsMergeOk.cwd,
         Op.delBranch "feature", Op.hook .afterRemove, Op.hook .afterMerge,
         Op.out "/w/repo"] ∧
      ((vcsMergeOk.removeWorktree vcsMergeOk.cwd).exitCode ≠ 0 →
        Event.logWarn ("Failed to remove worktree: " ++
            (vcsMergeOk.removeWorktree vcsMergeOk.cwd).stderr) ∈
          (mergeCommand execEnvOk vcsMergeOk configDemo false).1) ∧
      ((vcsMergeOk.deleteBranch "feature").exitCode ≠ 0 →
        Event.logWarn ("Failed to delete branch \"" ++ "feature" ++ "\": " ++
            (vcsMergeOk.deleteBranch "feature").stderr) ∈
          (mergeCommand execEnvOk vcsMergeOk configDemo false).1) :=
  mergeCommand_cleanup_path execEnvOk vcsMergeOk configDemo "feature"
    ⟨"/w/repo", some "main", false⟩ rfl rfl (by decide) rfl rfl

/-- Witness for C7 at a concrete forced removal of the primary worktree. -/
theorem removeCommand_default_branch_guard_demo :
    removeCommand execEnvOk vcsConflict uiNoTty configDemo ⟨some "main", true⟩ =
      ([], some (.onDefaultBranch "remove")) :=
  removeCommand_default_branch_guard execEnvOk vcsConflict uiNoTty configDemo
    "main" true ⟨"/w/repo", some "main", false⟩ rfl (by decide) rfl

/-- Witness for C10 at a concrete unforced removal without a TTY. -/
theorem removeCommand_non_tty_decline_demo :
    removeCommand execEnvOk vcsConflict uiNoTty configDemo ⟨some "feature", false⟩ =
      ([Event.logError
          "Cannot confirm in non-interactive mode. Use --force to skip confirmation.",
        Event.logInfo "Cancelled"], none) :=
  removeCommand_non_tty_decline execEnvOk vcsConflict uiNoTty configDemo
    "feature" ⟨"/w/repo-feature", some "feature", false⟩ rfl (by decide)
    (by decide) rfl

/-- Normalisation is the identity on component lists free of `.` and
`..`, whatever components are already accumulated. -/
theorem foldl_normStep_clean (l : List String) :
    ∀ acc : List String, "." ∉ l → ".." ∉ l → l.foldl normStep acc = acc ++ l := by
  induction l with
  | nil => intro acc _ _; simp
  | cons s rest ih =>
    intro acc h1 h2
    simp only [List.mem_cons, not_or] at h1 h2
    have hs1 : s ≠ "." := fun h => h1.1 h.symm
    have hs2 : s ≠ ".." := fun h => h2.1 h.symm
    simp only [List.foldl_cons, normStep, if_neg hs1, if_neg hs2]
    rw [ih (acc ++ [s]) h1.2 h2.2]
    simp

/-- C9 counterexample: with repository root /home/user/proj and the
command invoked from the subdirectory /home/user/proj/packages, the
default template still substitutes to ../proj-feature-x, but the code
resolves it against the invocation's working directory, landing inside
the repository — not at the repository's sibling
/home/user/proj-feature-x. -/
theorem createPath_sibling_refute :
    resolveWorktreePath "../{repo}-{branch}"
        ⟨"proj", "feature-x", "/home/user"⟩ = "../proj-feature-x" ∧
      createWorktreePathOf "/home/user/proj/packages" "/home/user/proj" "proj"
          "../{repo}-{branch}" "feature-x" = "/home/user/proj/proj-feature-x" ∧
      "/home/user/proj/proj-feature-x" ≠ "/home/user/proj-feature-x" := by
  refine ⟨by decide, by decide, by decide⟩

/-- C9 as amended: the template substitutes to ../proj-feature-x, and the
absolute path is resolved against the invocation's working directory;
invoked from the repository root, the result is the repository parent's
child proj-feature-x — the repository's sibling directory. -/
theorem createPath_resolution (repoRoot : String)
    (h1 : "." ∉ splitPath repoRoot) (h2 : ".." ∉ splitPath repoRoot) :
    resolveWorktreePath "../{repo}-{branch}"
        ⟨"proj", "feature-x", dirname repoRoot⟩ = "../proj-feature-x" ∧
      createWorktreePathOf repoRoot repoRoot "proj" "../{repo}-{branch}"
          "feature-x" =
        joinAbs ((splitPath repoRoot).dropLast ++ ["proj-feature-x"]) := by
  have hsub : resolveWorktreePath "../{repo}-{branch}"
      ⟨"proj", "feature-x", dirname repoRoot⟩ = "../proj-feature-x" := rfl
  refine ⟨hsub, ?_⟩
  unfold createWorktreePathOf
  rw [hsub]
  unfold pathResolve
  rw [if_neg (by decide)]
  have hsplit : splitPath "../proj-feature-x" = ["..", "proj-feature-x"] := by
    decide
  rw [hsplit]
  unfold normSegs
  rw [List.foldl_append, foldl_normStep_clean (splitPath repoRoot) [] h1 h2]
  simp [normStep]

/-- Witness for the amended C9 at a concrete repository root. -/
theorem createPath_resolution_demo :
    ("." ∉ splitPath "/home/user/proj" ∧ ".." ∉ splitPath "/home/user/proj") ∧
      resolveWorktreePath "../{repo}-{branch}"
          ⟨"proj", "feature-x", dirname "/home/user/proj"⟩ = "../proj-feature-x" ∧
        createWorktreePathOf "/home/user/proj" "/home/user/proj" "proj"
            "../{repo}-{branch}" "feature-x" =
          joinAbs ((splitPath "/home/user/proj").dropLast ++ ["proj-feature-x"]) :=
  ⟨⟨by decide, by decide⟩,
   createPath_resolution "/home/user/proj" (by decide) (by decide)⟩

end Wt
